import Mathlib

/- Shallow embedding of the Ghoti::shared_string_view class
   (src/src/shared_string_view.cpp, src/include/shared_string_view.hpp).

   A backing buffer (std::string held through a std::shared_ptr) is modelled as a
   list of bytes; the set of live buffers is a Store, a list of buffers, and a
   buffer reference (the shared_ptr) is an index into the Store.  A view is the
   triple (target : optional buffer reference, start, len), exactly the data
   members of shared_string_view.  Mutating operations take and return a Store.
   size_t values are modelled as Nat.  Stored lengths and their sums stay below
   2^64 for every buffer that can exist in memory, so plain Nat addition is
   faithful there; substr, however, adds caller-supplied size_t offsets that
   range over all of size_t, and its arithmetic is therefore modelled with the
   source's wrapping (mod 2^64) semantics explicitly. -/

/-- A byte of a backing string. -/
abbrev Byte := Nat

/-- The contents of one backing buffer (one std::string). -/
abbrev Buffer := List Byte

/-- All live buffers; a shared_ptr target is an index into this list. -/
abbrev Store := List Buffer

/-- The data members of shared_string_view: target (shared_ptr, possibly null),
start, len (both size_t).  Mirrors shared_string_view.hpp lines 150-173. -/
structure shared_string_view where
  target : Option Nat
  start : Nat
  len : Nat
deriving DecidableEq

/-- Dereference a buffer index (the default is never reached for well-formed
views). -/
def bufAt (st : Store) (i : Nat) : Buffer := st.getD i []

/-- Byte content of a Lean string literal, for concrete test inputs. -/
def strBytes (s : String) : List Byte := s.data.map Char.toNat

/-- Constructors from a byte sequence (shared_string_view.cpp lines 15-25):
allocate a fresh buffer holding the bytes; start = 0, len = target length. -/
def mkSSV (st : Store) (s : List Byte) : Store × shared_string_view :=
  (st ++ [s], ⟨some st.length, 0, s.length⟩)

/-- The private no-buffer constructor shared_string_view(bool)
(shared_string_view.cpp line 23): target = nullptr, start = 0, len = 0. -/
def nullSSV : shared_string_view := ⟨none, 0, 0⟩

/-- operator std::string_view (lines 27-32): the slice the view denotes,
string_view(*target).substr(start, len) when a buffer is present, "" otherwise. -/
def toStringView (st : Store) (v : shared_string_view) : List Byte :=
  match v.target with
  | some i => ((bufAt st i).drop v.start).take v.len
  | none => []

/-- length() (lines 34-36): returns len. -/
def shared_string_view.length (v : shared_string_view) : Nat := v.len

/-- The size_t modulus. -/
def W64 : Nat := 2 ^ 64

/-- size_t addition: wraps modulo 2^64. -/
def w64add (a b : Nat) : Nat := (a + b) % W64

/-- size_t subtraction: wraps modulo 2^64. -/
def w64sub (a b : Nat) : Nat := (a % W64 + W64 - b % W64) % W64

/-- substr(offset, length) (lines 38-43): copy the view, set
copy.start = min(start + offset, start + len) and
copy.len = min(len - (copy.start - start), length), all computed in size_t,
so the additions and subtractions wrap modulo 2^64: an offset at the top of
the size_t range makes start + offset wrap around to a small value. -/
def shared_string_view.substr (v : shared_string_view) (offset length : Nat) :
    shared_string_view :=
  let newStart := min (w64add v.start offset) (w64add v.start v.len)
  { v with start := newStart,
           len := min (w64sub v.len (w64sub newStart v.start)) length }

/-- operator== (lines 45-51): both targets present, compare the two slices;
exactly one present, unequal; both null, equal. -/
def ssvBeq (st : Store) (a b : shared_string_view) : Bool :=
  match a.target, b.target with
  | some _, some _ => toStringView st a == toStringView st b
  | none, none => true
  | _, _ => false

/-- Lexicographic byte-wise three-way comparison of two byte sequences, the
semantics of std::string_view's operator<=> (char_traits<char>::compare). -/
def lexCmp : List Byte → List Byte → Ordering
  | [], [] => .eq
  | [], _ :: _ => .lt
  | _ :: _, [] => .gt
  | a :: as, b :: bs =>
    match compare a b with
    | .eq => lexCmp as bs
    | o => o

/-- operator<=> (lines 53-61): both present, compare slices; the view with a
buffer is greater than a null view; both null, equivalent. -/
def ssvCmp (st : Store) (a b : shared_string_view) : Ordering :=
  match a.target, b.target with
  | some _, some _ => lexCmp (toStringView st a) (toStringView st b)
  | some _, none => .gt
  | none, some _ => .lt
  | none, none => .eq

/-- The rhs-bytes ternary shared by operator+= and operator+ (lines 67-69,
75-77, 106-111): a whole-buffer operand contributes its whole buffer directly,
any other operand contributes target->substr(start, len). -/
def takeSlice (st : Store) (v : shared_string_view) : List Byte :=
  match v.target with
  | some j =>
    if v.start == 0 && v.len == (bufAt st j).length
    then bufAt st j
    else ((bufAt st j).drop v.start).take v.len
  | none => []

/-- operator+= (lines 63-82).  Whole-buffer views (start = 0 and
len = target->length()) append rhs's bytes to the shared buffer in place;
any other view allocates a fresh buffer holding its own slice followed by
rhs's bytes, rebinds to it and zeroes start.  Either way len grows by
rhs.length().  The rhs bytes and the whole-buffer test are evaluated against
the pre-call store, which is also what the C++ evaluation order yields when
rhs aliases the view or its buffer.  A null *this dereferences nullptr in the
source (undefined); it is totalised as a no-op and never reached by a claim. -/
def opAppendAssign (st : Store) (v rhs : shared_string_view) :
    Store × shared_string_view :=
  match v.target with
  | none => (st, v)
  | some i =>
    if v.start == 0 && v.len == (bufAt st i).length then
      (st.set i (bufAt st i ++ takeSlice st rhs), { v with len := v.len + rhs.len })
    else
      (st ++ [((bufAt st i).drop v.start).take v.len ++ takeSlice st rhs],
       ⟨some st.length, 0, v.len + rhs.len⟩)

/-- operator+ (lines 100-116): always allocate a fresh buffer holding this
view's slice followed by rhs's slice, and return a view over all of it
(start = 0 from the no-buffer constructor, len = target->length()). -/
def opConcat (st : Store) (v rhs : shared_string_view) :
    Store × shared_string_view :=
  let content := takeSlice st v ++ takeSlice st rhs
  (st ++ [content], ⟨some st.length, 0, content.length⟩)

/-- operator[] (lines 118-120): returns (*target)[pos].  The source indexes
the backing buffer at pos itself; it does not add the view's start offset.
Out-of-range pos is undefined in the source and totalised with 0 here. -/
def opIndex (st : Store) (v : shared_string_view) (pos : Nat) : Byte :=
  match v.target with
  | some i => (bufAt st i).getD pos 0
  | none => 0

/-- begin()/end() (lines 122-128): forward iteration ranges over the slice. -/
def iterBytes (st : Store) (v : shared_string_view) : List Byte :=
  toStringView st v

/-- rbegin()/rend() (lines 130-136): reverse iteration over the slice. -/
def iterBytesRev (st : Store) (v : shared_string_view) : List Byte :=
  (toStringView st v).reverse

/-- operator<< (lines 138-140): the bytes written to the stream are exactly
the slice, out << string_view(ssv). -/
def streamInsert (st : Store) (v : shared_string_view) : List Byte :=
  toStringView st v

/-- Models std::hash<std::string_view>: an arbitrary but fixed function of the
byte content (the exact mixing function is implementation detail; the source
only relies on delegating to it). -/
def hashBytes (s : List Byte) : Nat :=
  s.foldl (fun h b => (h * 31 + b) % 2 ^ 64) 5381

/-- std::hash<shared_string_view> (lines 142-144): hash<string_view>()(ssv),
i.e. the content hash of the slice the view converts to. -/
def ssvHash (st : Store) (v : shared_string_view) : Nat :=
  hashBytes (toStringView st v)

/-- The implicitly-declared move constructor (the header declares no copy or
move operations and no destructor, so moving is member-wise): moving the
shared_ptr leaves the source's target null, while the size_t members start and
len are scalars, which member-wise move copies and leaves unchanged in the
source.  Returns (source after the move, destination). -/
def moveFrom (v : shared_string_view) : shared_string_view × shared_string_view :=
  ({ v with target := none }, v)

/-- Well-formedness of a view against a store: a present target is a live
buffer index and the range [start, start + len) lies inside that buffer. -/
def WF (st : Store) (v : shared_string_view) : Prop :=
  ∀ i, v.target = some i → i < st.length ∧ v.start + v.len ≤ (bufAt st i).length

instance (st : Store) (v : shared_string_view) : Decidable (WF st v) :=
  match hv : v.target with
  | some i =>
    if h : i < st.length ∧ v.start + v.len ≤ (bufAt st i).length then
      .isTrue (fun j hj => by
        rw [hv] at hj
        injection hj with hj
        exact hj ▸ h)
    else .isFalse (fun hall => h (hall i hv))
  | none =>
    .isTrue (fun j hj => by rw [hv] at hj; exact Option.noConfusion hj)

/-- Concrete running example: the view over "abc 123" from the tests. -/
def demoSt : Store := (mkSSV [] (strBytes "abc 123")).1

/-- The whole-buffer view over "abc 123". -/
def demoV : shared_string_view := (mkSSV [] (strBytes "abc 123")).2

/-- The sub-view demoV.substr(4, 3), denoting "123". -/
def demoSub : shared_string_view := demoV.substr 4 3

/-- Looking up strictly below the length of a store is unaffected by pushing a
new buffer at its end. -/
theorem bufAt_append_lt : ∀ (st : Store) (x : Buffer) (j : Nat), j < st.length →
    bufAt (st ++ [x]) j = bufAt st j
  | [], _, j, h => absurd h (Nat.not_lt_zero j)
  | _ :: _, _, 0, _ => rfl
  | _ :: bs, x, j + 1, h => bufAt_append_lt bs x j (Nat.lt_of_succ_lt_succ h)

/-- A buffer pushed at the end of a store lives at index st.length. -/
theorem bufAt_append_self : ∀ (st : Store) (x : Buffer),
    bufAt (st ++ [x]) st.length = x
  | [], _ => rfl
  | _ :: bs, x => bufAt_append_self bs x

/-- Overwriting a live index changes exactly that lookup. -/
theorem bufAt_set_self : ∀ (st : Store) (i : Nat) (x : Buffer), i < st.length →
    bufAt (st.set i x) i = x
  | [], i, _, h => absurd h (Nat.not_lt_zero i)
  | _ :: _, 0, _, _ => rfl
  | _ :: bs, i + 1, x, h => bufAt_set_self bs i x (Nat.lt_of_succ_lt_succ h)

/-- Overwriting one index leaves every other lookup unchanged. -/
theorem bufAt_set_ne : ∀ (st : Store) (i k : Nat) (x : Buffer), k ≠ i →
    bufAt (st.set i x) k = bufAt st k
  | [], _, _, _, _ => rfl
  | _ :: _, 0, 0, _, hne => absurd rfl hne
  | _ :: _, 0, _ + 1, _, _ => rfl
  | _ :: _, _ + 1, 0, _, _ => rfl
  | _ :: bs, i + 1, k + 1, x, hne =>
    bufAt_set_ne bs i k x (fun h => hne (congrArg Nat.succ h))

/-- Pushing a fresh buffer does not change the slice of any well-formed view. -/
theorem toSV_append_frame (st : Store) (x : Buffer) (w : shared_string_view)
    (hwf : WF st w) : toStringView (st ++ [x]) w = toStringView st w := by
  cases hw : w.target with
  | none => simp only [toStringView, hw]
  | some i =>
    simp only [toStringView, hw]
    rw [bufAt_append_lt st x i (hwf i hw).1]

/-- A well-formed view's slice has exactly len bytes. -/
theorem toSV_length (st : Store) (v : shared_string_view) (i : Nat)
    (hv : v.target = some i) (hwf : WF st v) :
    (toStringView st v).length = v.len := by
  simp only [toStringView, hv]
  have h := (hwf i hv).2
  rw [List.length_take, List.length_drop]
  omega

/-- The whole-buffer ternary of the source always contributes exactly the
operand's slice: a whole-buffer operand's whole buffer is its slice. -/
theorem takeSlice_eq_toSV (st : Store) (v : shared_string_view) :
    takeSlice st v = toStringView st v := by
  cases hv : v.target with
  | none => simp only [takeSlice, toStringView, hv]
  | some j =>
    simp only [takeSlice, toStringView, hv]
    by_cases h : (v.start == 0 && v.len == (bufAt st j).length) = true
    · rw [if_pos h]
      rw [Bool.and_eq_true, beq_iff_eq, beq_iff_eq] at h
      rw [h.1, h.2, List.drop_zero, List.take_length]
    · rw [if_neg h]

/-- Lexicographic comparison of a byte sequence with itself is equivalence. -/
theorem lexCmp_self : ∀ s : List Byte, lexCmp s s = Ordering.eq
  | [] => rfl
  | a :: as => by
    unfold lexCmp
    rw [Nat.compare_eq_eq.mpr rfl]
    exact lexCmp_self as

/-- C1: the claim states that operator[] returns the byte at
buffer[start + pos], the pos-th byte of the slice.  The source instead
evaluates (*target)[pos], ignoring the view's start offset.  At the concrete
sub-view View("abc 123").substr(4, 3) — whose slice is "123" — indexing
position 0 returns 97 = 'a', the backing buffer's first byte, while the
slice's byte 0 is 49 = '1'. -/
theorem C1_index_ignores_start :
    opIndex demoSt demoSub 0 = 97
    ∧ toStringView demoSt demoSub = strBytes "123"
    ∧ (strBytes "123").getD 0 0 = 49
    ∧ bufAt demoSt 0 = strBytes "abc 123"
    ∧ demoSub.start = 4
    ∧ (bufAt demoSt 0).getD (demoSub.start + 0) 0 = 49 := by
  refine ⟨?_, ?_, ?_, ?_, ?_, ?_⟩ <;> decide

/-- C2, counterexample: the claim asserts that every view with no buffer
reference has start = 0 and len = 0, including a moved-from view.  Moving
from the whole-buffer view over "abc 123" leaves the source with no buffer
reference but with len = 7, not 0. -/
theorem C2_counterexample :
    (moveFrom demoV).1.target = none ∧ (moveFrom demoV).1.len ≠ 0 := by
  refine ⟨rfl, ?_⟩
  decide

/-- C2, amended: a view built by the no-buffer constructor has no buffer and
start = 0, len = 0; a move leaves the destination identical to the original,
and leaves the source with no buffer reference but still holding its previous
start and len values (the size_t members are copied by the member-wise move),
so the invariant "no buffer implies start = 0 and len = 0" holds for
constructor-made null views but not for moved-from views of nonzero length.
No buffer-allocating or slicing operation yields the null state: construction
always binds a fresh buffer and substr preserves the buffer reference. -/
theorem C2_move_null_state (v : shared_string_view) :
    (moveFrom v).2 = v
    ∧ (moveFrom v).1.target = none
    ∧ (moveFrom v).1.start = v.start
    ∧ (moveFrom v).1.len = v.len
    ∧ nullSSV.target = none ∧ nullSSV.start = 0 ∧ nullSSV.len = 0
    ∧ (∀ (st : Store) (s : List Byte), (mkSSV st s).2.target = some st.length)
    ∧ (∀ offset length, (v.substr offset length).target = v.target) :=
  ⟨rfl, rfl, rfl, rfl, rfl, rfl, rfl, fun _ _ => rfl, fun _ _ => rfl⟩

/-- Reduction of W64 to a numeral, for the arithmetic decision procedure. -/
theorem W64_eq : W64 = 18446744073709551616 := by norm_num [W64]

/-- When start + offset does not overflow size_t (and the view's own range
does not either), the wrapping arithmetic of substr coincides with the exact
clamp formulas. -/
theorem substr_no_overflow (v : shared_string_view) (offset length : Nat)
    (hoff : v.start + offset < W64) (hrange : v.start + v.len < W64) :
    v.substr offset length
      = ⟨v.target, min (v.start + offset) (v.start + v.len),
          min (v.len - (min (v.start + offset) (v.start + v.len) - v.start))
            length⟩ := by
  rw [W64_eq] at hoff hrange
  simp only [shared_string_view.substr]
  have h1 : w64add v.start offset = v.start + offset := by
    simp only [w64add, W64_eq]
    omega
  have h2 : w64add v.start v.len = v.start + v.len := by
    simp only [w64add, W64_eq]
    omega
  rw [h1, h2]
  have h3 : w64sub (min (v.start + offset) (v.start + v.len)) v.start
      = min (v.start + offset) (v.start + v.len) - v.start := by
    simp only [w64sub, W64_eq]
    omega
  rw [h3]
  have h4 : w64sub v.len (min (v.start + offset) (v.start + v.len) - v.start)
      = v.len - (min (v.start + offset) (v.start + v.len) - v.start) := by
    simp only [w64sub, W64_eq]
    omega
  rw [h4]

/-- C5, counterexample: the claim quantifies over all offset and length
arguments, but substr computes in wrapping size_t.  On the sub-view
View("abc 123").substr(4, 3) (start = 4, len = 3, slice "123"), the size_t
offset 2^64 - 4 is far beyond len, so the claim requires the empty view at
the parent's end (start = 7, len = 0, per the clamp formula
min(4 + (2^64-4), 7) = 7).  Instead 4 + (2^64 - 4) wraps to 0, the
subtraction underflows and wraps as well, and the call returns a view with
start = 0 and len = 7 denoting the whole buffer "abc 123" — escaping the
parent's 3-byte range entirely. -/
theorem C5_substr_counterexample :
    demoSub.start = 4
    ∧ demoSub.len = 3
    ∧ demoSub.len ≤ 2 ^ 64 - 4
    ∧ (demoSub.substr (2 ^ 64 - 4) 10).start = 0
    ∧ (demoSub.substr (2 ^ 64 - 4) 10).len = 7
    ∧ toStringView demoSt (demoSub.substr (2 ^ 64 - 4) 10) = strBytes "abc 123"
    ∧ (demoSub.substr (2 ^ 64 - 4) 10).start
        ≠ min (demoSub.start + (2 ^ 64 - 4)) (demoSub.start + demoSub.len)
    ∧ (demoSub.substr (2 ^ 64 - 4) 10).len ≠ 0 := by
  refine ⟨?_, ?_, ?_, ?_, ?_, ?_, ?_, ?_⟩ <;> decide

/-- C5, amended: for every view and all offset and length arguments such that
start + offset does not overflow size_t (start + len never does for a view
over an in-memory buffer, kept as an explicit hypothesis here), substr shares
the parent's buffer reference, clamps
newStart = min(start + offset, start + len) and
newLen = min(len - (newStart - start), length), never escapes the parent's
range, yields an empty view positioned at the parent's end when offset is out
of range, and preserves well-formedness (it never faults).  For offsets at
the top of the size_t range, start + offset wraps and the result can instead
escape the parent's range, as the counterexample shows. -/
theorem C5_substr_clamps (st : Store) (v : shared_string_view)
    (offset length : Nat) (hwf : WF st v)
    (hoff : v.start + offset < W64) (hrange : v.start + v.len < W64) :
    (v.substr offset length).target = v.target
    ∧ (v.substr offset length).start = min (v.start + offset) (v.start + v.len)
    ∧ (v.substr offset length).len
        = min (v.len - (min (v.start + offset) (v.start + v.len) - v.start)) length
    ∧ v.start ≤ (v.substr offset length).start
    ∧ (v.substr offset length).start + (v.substr offset length).len
        ≤ v.start + v.len
    ∧ (v.len ≤ offset →
        (v.substr offset length).start = v.start + v.len
        ∧ (v.substr offset length).len = 0)
    ∧ WF st (v.substr offset length) := by
  rw [substr_no_overflow v offset length hoff hrange]
  refine ⟨rfl, rfl, rfl, ?_, ?_, ?_, ?_⟩
  · show v.start ≤ min (v.start + offset) (v.start + v.len)
    omega
  · show min (v.start + offset) (v.start + v.len)
        + min (v.len - (min (v.start + offset) (v.start + v.len) - v.start)) length
        ≤ v.start + v.len
    omega
  · intro h
    constructor
    · show min (v.start + offset) (v.start + v.len) = v.start + v.len
      omega
    · show min (v.len - (min (v.start + offset) (v.start + v.len) - v.start)) length = 0
      omega
  · intro i hi
    have hi' : v.target = some i := hi
    have hb := hwf i hi'
    refine ⟨hb.1, ?_⟩
    show min (v.start + offset) (v.start + v.len)
        + min (v.len - (min (v.start + offset) (v.start + v.len) - v.start)) length
        ≤ (bufAt st i).length
    omega

/-- C5 witness: the amended clamp theorem applied to the sub-view example of
the spec, View("abc 123") sliced at offset 4 with requested length 3, where
no size_t overflow occurs. -/
theorem C5_substr_clamps_witness :
    WF demoSt demoV
    ∧ demoV.start + 4 < W64
    ∧ demoV.start + demoV.len < W64
    ∧ (demoV.substr 4 3).start + (demoV.substr 4 3).len
        ≤ demoV.start + demoV.len := by
  refine ⟨by decide, by decide, by decide, ?_⟩
  exact (C5_substr_clamps demoSt demoV 4 3 (by decide) (by decide)
    (by decide)).2.2.2.2.1

/-- C6: the three-way comparison treats the null state as minimum and is
content-based on present views: both null compare equivalent; exactly one
null makes the view with the buffer greater; both present compare as the
lexicographic byte-wise comparison of the two slices, so distinct buffers
with equal content compare equivalent, and every view is equivalent to
itself. -/
theorem C6_ordering_cases (st : Store) (a b : shared_string_view) :
    (a.target = none → b.target = none → ssvCmp st a b = Ordering.eq)
    ∧ (a.target = none → b.target ≠ none → ssvCmp st a b = Ordering.lt)
    ∧ (a.target ≠ none → b.target = none → ssvCmp st a b = Ordering.gt)
    ∧ (a.target ≠ none → b.target ≠ none →
        ssvCmp st a b = lexCmp (toStringView st a) (toStringView st b))
    ∧ (a.target ≠ none → b.target ≠ none →
        toStringView st a = toStringView st b → ssvCmp st a b = Ordering.eq)
    ∧ ssvCmp st a a = Ordering.eq := by
  refine ⟨?_, ?_, ?_, ?_, ?_, ?_⟩
  · intro ha hb
    simp only [ssvCmp, ha, hb]
  · intro ha hb
    cases hb' : b.target with
    | none => exact absurd hb' hb
    | some j => simp only [ssvCmp, ha, hb']
  · intro ha hb
    cases ha' : a.target with
    | none => exact absurd ha' ha
    | some i => simp only [ssvCmp, ha', hb]
  · intro ha hb
    cases ha' : a.target with
    | none => exact absurd ha' ha
    | some i =>
      cases hb' : b.target with
      | none => exact absurd hb' hb
      | some j => simp only [ssvCmp, ha', hb']
  · intro ha hb hcontent
    cases ha' : a.target with
    | none => exact absurd ha' ha
    | some i =>
      cases hb' : b.target with
      | none => exact absurd hb' hb
      | some j =>
        simp only [ssvCmp, ha', hb', hcontent]
        exact lexCmp_self _
  · cases ha' : a.target with
    | none => simp only [ssvCmp, ha']
    | some i =>
      simp only [ssvCmp, ha']
      exact lexCmp_self _

/-- C6 witness: the case analysis applied to the null view and the non-null
view over "abc 123": the view with a buffer compares greater, the null view
compares less, and two null views compare equivalent. -/
theorem C6_ordering_cases_witness :
    nullSSV.target = none
    ∧ demoV.target ≠ none
    ∧ ssvCmp demoSt nullSSV demoV = Ordering.lt
    ∧ ssvCmp demoSt demoV nullSSV = Ordering.gt := by
  refine ⟨rfl, by decide, ?_, ?_⟩
  · exact (C6_ordering_cases demoSt nullSSV demoV).2.1 rfl (by decide)
  · exact (C6_ordering_cases demoSt demoV nullSSV).2.2.1 (by decide) rfl

/-- C7: equality depends only on null-state and slice content: two null views
are equal; a null view never equals a view holding a buffer; two views with
buffers are equal exactly when their slices have identical content, whether
or not they share a buffer. -/
theorem C7_equality_cases (st : Store) (a b : shared_string_view) :
    (a.target = none → b.target = none → ssvBeq st a b = true)
    ∧ (a.target = none → b.target ≠ none → ssvBeq st a b = false)
    ∧ (a.target ≠ none → b.target = none → ssvBeq st a b = false)
    ∧ (a.target ≠ none → b.target ≠ none →
        (ssvBeq st a b = true ↔ toStringView st a = toStringView st b)) := by
  refine ⟨?_, ?_, ?_, ?_⟩
  · intro ha hb
    simp only [ssvBeq, ha, hb]
  · intro ha hb
    cases hb' : b.target with
    | none => exact absurd hb' hb
    | some j => simp only [ssvBeq, ha, hb']
  · intro ha hb
    cases ha' : a.target with
    | none => exact absurd ha' ha
    | some i => simp only [ssvBeq, ha', hb]
  · intro ha hb
    cases ha' : a.target with
    | none => exact absurd ha' ha
    | some i =>
      cases hb' : b.target with
      | none => exact absurd hb' hb
      | some j =>
        simp only [ssvBeq, ha', hb']
        exact beq_iff_eq

/-- C7 witness: equality applied to two views with distinct buffers but equal
slice content, View("123") and View("abc 123").substr(4, 3). -/
theorem C7_equality_cases_witness :
    (mkSSV demoSt (strBytes "123")).2.target ≠ none
    ∧ demoSub.target ≠ none
    ∧ ssvBeq (mkSSV demoSt (strBytes "123")).1
        (mkSSV demoSt (strBytes "123")).2 demoSub = true := by
  refine ⟨by decide, by decide, ?_⟩
  exact ((C7_equality_cases (mkSSV demoSt (strBytes "123")).1
    (mkSSV demoSt (strBytes "123")).2 demoSub).2.2.2
    (by decide) (by decide)).mpr (by decide)

/-- C9: the hash of a view is the content hash of its slice: a freshly
constructed view over any byte sequence s hashes exactly as the plain byte
sequence s does, and any two views whose slices agree hash identically,
regardless of which store or buffer backs them. -/
theorem C9_hash_content (st st1 st2 : Store) (s : List Byte)
    (v1 v2 : shared_string_view)
    (h : toStringView st1 v1 = toStringView st2 v2) :
    ssvHash (mkSSV st s).1 (mkSSV st s).2 = hashBytes s
    ∧ ssvHash st1 v1 = ssvHash st2 v2 := by
  constructor
  · simp only [ssvHash, toStringView, mkSSV]
    rw [bufAt_append_self, List.drop_zero, List.take_length]
  · simp only [ssvHash, h]

/-- C9 witness: the hash law applied to the plain sequence "123", the fresh
view over it, and the equal-content sub-view View("abc 123").substr(4, 3). -/
theorem C9_hash_content_witness :
    toStringView (mkSSV [] (strBytes "123")).1 (mkSSV [] (strBytes "123")).2
      = toStringView demoSt demoSub
    ∧ ssvHash (mkSSV [] (strBytes "123")).1 (mkSSV [] (strBytes "123")).2
      = hashBytes (strBytes "123")
    ∧ ssvHash (mkSSV [] (strBytes "123")).1 (mkSSV [] (strBytes "123")).2
      = ssvHash demoSt demoSub := by
  have h := C9_hash_content [] (mkSSV [] (strBytes "123")).1 demoSt
    (strBytes "123") (mkSSV [] (strBytes "123")).2 demoSub (by decide)
  exact ⟨by decide, h.1, h.2⟩

/-- C10: a null view converts to the empty slice, so stream insertion of a
null view writes nothing, its forward and reverse iteration ranges are empty
and its hash is the hash of the empty byte sequence; yet a null view is never
equal to a view that holds a buffer, even one of empty content. -/
theorem C10_null_view_empty (st : Store) :
    toStringView st nullSSV = []
    ∧ streamInsert st nullSSV = []
    ∧ iterBytes st nullSSV = []
    ∧ iterBytesRev st nullSSV = []
    ∧ ssvHash st nullSSV = hashBytes []
    ∧ (∀ w : shared_string_view, w.target ≠ none →
        ssvBeq st nullSSV w = false ∧ ssvBeq st w nullSSV = false) := by
  refine ⟨rfl, rfl, rfl, rfl, rfl, ?_⟩
  intro w hw
  cases hw' : w.target with
  | none => exact absurd hw' hw
  | some i =>
    constructor
    · simp only [ssvBeq, hw', nullSSV]
    · simp only [ssvBeq, hw', nullSSV]

/-- C10 witness: the null view writes nothing to a stream, and is unequal to
the non-null view over the empty string even though both have empty content. -/
theorem C10_null_view_empty_witness :
    (mkSSV [] (strBytes "")).2.target ≠ none
    ∧ streamInsert (mkSSV [] (strBytes "")).1 nullSSV = []
    ∧ ssvBeq (mkSSV [] (strBytes "")).1 nullSSV (mkSSV [] (strBytes "")).2
        = false := by
  have h := C10_null_view_empty (mkSSV [] (strBytes "")).1
  exact ⟨by decide, h.2.1, (h.2.2.2.2.2 (mkSSV [] (strBytes "")).2 (by decide)).1⟩

/-- Unfolding of the slice conversion at a literal present target. -/
theorem toStringView_mk_some (st : Store) (i s l : Nat) :
    toStringView st ⟨some i, s, l⟩ = ((bufAt st i).drop s).take l := rfl

/-- C3: appending to a whole-buffer view (start = 0 and len = buffer length)
grows the shared buffer in place by exactly rhs's slice, keeps the view bound
to the same buffer with start still 0, increments len by rhs's length, makes
the view's content its old slice followed by rhs's slice, and leaves the view
whole-buffer again, so a further append still grows in place.  rhs may be the
view itself: the self-append instance doubles the content. -/
theorem C3_whole_buffer_append (st : Store) (v rhs : shared_string_view)
    (i j : Nat) (hv : v.target = some i) (hr : rhs.target = some j)
    (hwfv : WF st v) (hwfr : WF st rhs)
    (hs : v.start = 0) (hl : v.len = (bufAt st i).length) :
    (opAppendAssign st v rhs).1 = st.set i (bufAt st i ++ toStringView st rhs)
    ∧ (opAppendAssign st v rhs).2.target = some i
    ∧ (opAppendAssign st v rhs).2.start = 0
    ∧ (opAppendAssign st v rhs).2.len = v.len + rhs.len
    ∧ toStringView (opAppendAssign st v rhs).1 (opAppendAssign st v rhs).2
        = toStringView st v ++ toStringView st rhs
    ∧ (opAppendAssign st v rhs).2.len
        = (bufAt (opAppendAssign st v rhs).1 i).length := by
  obtain ⟨tv, sv, lv⟩ := v
  simp only at hs hl
  subst hv hs hl
  have hi : i < st.length := (hwfv i rfl).1
  have hR : (toStringView st rhs).length = rhs.len := toSV_length st rhs j hr hwfr
  have hcond : ((0 : Nat) == 0 && (bufAt st i).length == (bufAt st i).length)
      = true := by simp
  refine ⟨?_, ?_, ?_, ?_, ?_, ?_⟩
  · simp only [opAppendAssign, hcond, if_true, takeSlice_eq_toSV]
  · simp only [opAppendAssign, hcond, if_true]
  · simp only [opAppendAssign, hcond, if_true]
  · simp only [opAppendAssign, hcond, if_true]
  · simp only [opAppendAssign, hcond, if_true, takeSlice_eq_toSV]
    rw [toStringView_mk_some, toStringView_mk_some,
      bufAt_set_self st i _ hi, List.drop_zero, List.drop_zero, ← hR,
      ← List.length_append, List.take_length, List.take_length]
  · simp only [opAppendAssign, hcond, if_true, takeSlice_eq_toSV]
    rw [bufAt_set_self st i _ hi, List.length_append, hR]

/-- C3 witness: the self-append of the protocol test, View("abc 123") += itself,
doubles the content in place to "abc 123abc 123". -/
theorem C3_whole_buffer_append_witness :
    demoV.target = some 0
    ∧ WF demoSt demoV
    ∧ demoV.start = 0
    ∧ demoV.len = (bufAt demoSt 0).length
    ∧ toStringView (opAppendAssign demoSt demoV demoV).1
        (opAppendAssign demoSt demoV demoV).2 = strBytes "abc 123abc 123" := by
  refine ⟨rfl, by decide, rfl, by decide, ?_⟩
  have h := C3_whole_buffer_append demoSt demoV demoV 0 0 rfl rfl
    (by decide) (by decide) rfl (by decide)
  rw [h.2.2.2.2.1]
  decide

/-- C4: appending to a strict sub-view is copy-on-write: a brand-new buffer
is pushed holding exactly the view's current slice followed by rhs's slice,
the view rebinds to it with start = 0 and len = old len + rhs len and denotes
that concatenation, while every buffer already in the store, and hence the
slice of every sibling view over the old buffer, is unchanged. -/
theorem C4_subview_append_cow (st : Store) (v rhs : shared_string_view)
    (i j : Nat) (hv : v.target = some i) (hr : rhs.target = some j)
    (hwfv : WF st v) (hwfr : WF st rhs)
    (hnw : ¬ (v.start = 0 ∧ v.len = (bufAt st i).length)) :
    (opAppendAssign st v rhs).1
        = st ++ [toStringView st v ++ toStringView st rhs]
    ∧ (opAppendAssign st v rhs).2
        = ⟨some st.length, 0, v.len + rhs.len⟩
    ∧ toStringView (opAppendAssign st v rhs).1 (opAppendAssign st v rhs).2
        = toStringView st v ++ toStringView st rhs
    ∧ (∀ k, k < st.length →
        bufAt (opAppendAssign st v rhs).1 k = bufAt st k)
    ∧ (∀ w : shared_string_view, WF st w →
        toStringView (opAppendAssign st v rhs).1 w = toStringView st w) := by
  have take_len_sum : ∀ (l1 l2 : List Byte) (a b : Nat),
      l1.length = a → l2.length = b → (l1 ++ l2).take (a + b) = l1 ++ l2 := by
    intro l1 l2 a b h1 h2
    subst h1 h2
    rw [List.take_append, List.take_length]
  obtain ⟨tv, sv, lv⟩ := v
  simp only at hnw
  subst hv
  have hR : (toStringView st rhs).length = rhs.len := toSV_length st rhs j hr hwfr
  have hV : (((bufAt st i).drop sv).take lv).length = lv :=
    toSV_length st ⟨some i, sv, lv⟩ i rfl hwfv
  have hcond : (sv == 0 && lv == (bufAt st i).length) = false := by
    rw [Bool.and_eq_false_iff]
    rcases Decidable.em (sv = 0) with h0 | h0
    · right
      rw [beq_eq_false_iff_ne]
      exact fun hlen => hnw ⟨h0, hlen⟩
    · left
      rw [beq_eq_false_iff_ne]
      exact h0
  refine ⟨?_, ?_, ?_, ?_, ?_⟩
  · simp only [opAppendAssign, hcond, Bool.false_eq_true, if_false,
      takeSlice_eq_toSV, toStringView_mk_some]
  · simp only [opAppendAssign, hcond, Bool.false_eq_true, if_false]
  · simp only [opAppendAssign, hcond, Bool.false_eq_true, if_false,
      takeSlice_eq_toSV]
    rw [toStringView_mk_some, toStringView_mk_some, bufAt_append_self,
      List.drop_zero]
    exact take_len_sum _ _ _ _ hV hR
  · intro k hk
    simp only [opAppendAssign, hcond, Bool.false_eq_true, if_false]
    exact bufAt_append_lt st _ k hk
  · intro w hw
    simp only [opAppendAssign, hcond, Bool.false_eq_true, if_false]
    exact toSV_append_frame st _ w hw

/-- C4 witness: the copy-on-write test of the spec: with v = View("abc 123")
and sub = v.substr(0, 3), sub += View("foo") yields content "abcfoo" while
the sibling view v still denotes "abc 123". -/
theorem C4_subview_append_cow_witness :
    (demoV.substr 0 3).target = some 0
    ∧ WF (mkSSV demoSt (strBytes "foo")).1 (demoV.substr 0 3)
    ∧ ¬ ((demoV.substr 0 3).start = 0
        ∧ (demoV.substr 0 3).len
            = (bufAt (mkSSV demoSt (strBytes "foo")).1 0).length)
    ∧ toStringView
        (opAppendAssign (mkSSV demoSt (strBytes "foo")).1 (demoV.substr 0 3)
          (mkSSV demoSt (strBytes "foo")).2).1
        (opAppendAssign (mkSSV demoSt (strBytes "foo")).1 (demoV.substr 0 3)
          (mkSSV demoSt (strBytes "foo")).2).2 = strBytes "abcfoo"
    ∧ toStringView
        (opAppendAssign (mkSSV demoSt (strBytes "foo")).1 (demoV.substr 0 3)
          (mkSSV demoSt (strBytes "foo")).2).1 demoV = strBytes "abc 123" := by
  refine ⟨rfl, by decide, by decide, ?_, ?_⟩
  · have h := C4_subview_append_cow (mkSSV demoSt (strBytes "foo")).1
      (demoV.substr 0 3) (mkSSV demoSt (strBytes "foo")).2 0 1 rfl rfl
      (by decide) (by decide) (by decide)
    rw [h.2.2.1]
    decide
  · have h := C4_subview_append_cow (mkSSV demoSt (strBytes "foo")).1
      (demoV.substr 0 3) (mkSSV demoSt (strBytes "foo")).2 0 1 rfl rfl
      (by decide) (by decide) (by decide)
    rw [h.2.2.2.2 demoV (by decide)]
    decide

/-- C8: pure concatenation of two non-null views always allocates a fresh
buffer holding the first slice followed by the second, returns a whole-buffer
view over it (start = 0, len = the new buffer's length) denoting exactly that
concatenation, and mutates nothing: every pre-existing buffer, and hence the
slice of each operand, is unchanged. -/
theorem C8_concat_fresh_buffer (st : Store) (v rhs : shared_string_view)
    (i j : Nat) (_hv : v.target = some i) (_hr : rhs.target = some j)
    (_hwfv : WF st v) (_hwfr : WF st rhs) :
    (opConcat st v rhs).1 = st ++ [toStringView st v ++ toStringView st rhs]
    ∧ (opConcat st v rhs).2.target = some st.length
    ∧ (opConcat st v rhs).2.start = 0
    ∧ (opConcat st v rhs).2.len
        = (bufAt (opConcat st v rhs).1 st.length).length
    ∧ toStringView (opConcat st v rhs).1 (opConcat st v rhs).2
        = toStringView st v ++ toStringView st rhs
    ∧ (∀ k, k < st.length → bufAt (opConcat st v rhs).1 k = bufAt st k)
    ∧ (∀ w : shared_string_view, WF st w →
        toStringView (opConcat st v rhs).1 w = toStringView st w) := by
  refine ⟨?_, ?_, ?_, ?_, ?_, ?_, ?_⟩
  · simp only [opConcat, takeSlice_eq_toSV]
  · simp only [opConcat]
  · simp only [opConcat]
  · simp only [opConcat, takeSlice_eq_toSV]
    rw [bufAt_append_self]
  · simp only [opConcat, takeSlice_eq_toSV]
    rw [toStringView_mk_some, bufAt_append_self, List.drop_zero,
      List.take_length]
  · intro k hk
    simp only [opConcat, takeSlice_eq_toSV]
    exact bufAt_append_lt st _ k hk
  · intro w hw
    simp only [opConcat, takeSlice_eq_toSV]
    exact toSV_append_frame st _ w hw

/-- C8 witness: View("abc 123") + its sub-view "123" yields a fresh
whole-buffer view denoting "abc 123123" while the left operand still denotes
"abc 123". -/
theorem C8_concat_fresh_buffer_witness :
    demoV.target = some 0
    ∧ demoSub.target = some 0
    ∧ WF demoSt demoV
    ∧ WF demoSt demoSub
    ∧ toStringView (opConcat demoSt demoV demoSub).1
        (opConcat demoSt demoV demoSub).2 = strBytes "abc 123123"
    ∧ toStringView (opConcat demoSt demoV demoSub).1 demoV
        = strBytes "abc 123" := by
  refine ⟨rfl, rfl, by decide, by decide, ?_, ?_⟩
  · have h := C8_concat_fresh_buffer demoSt demoV demoSub 0 0 rfl rfl
      (by decide) (by decide)
    rw [h.2.2.2.2.1]
    decide
  · have h := C8_concat_fresh_buffer demoSt demoV demoSub 0 0 rfl rfl
      (by decide) (by decide)
    rw [h.2.2.2.2.2.2 demoV (by decide)]
    decide
